import Mathlib

/-!
Verification of the `read_input.py` extraction pipeline.

Python strings are modelled as lists of characters (`PyStr`), Python `None`
as `Option.none`, Python lists as Lean lists.  The two file readers
(`read_excel_data`, the PyMuPDF calls inside `extract_pdf_data`) are external
collaborators: the pipeline is modelled as a function of the values they
return (the spreadsheet scalars, possibly absent, and the raw line lists
collected per PDF rectangle).  Everything from those values onward —
`clean_extracted_text`, `lookup_account_info`, `combine_and_pad_lists`, and
the row-assembly loop of `main` — is embedded below, including the aliasing
of Python lists: `lookup_account_info` returns `lookup_table[key]` itself
when the key matches, so mutating the returned list mutates the table.
A returned row is therefore represented as either a reference into the
table (`RowRef.inl key`) or a fresh list (`RowRef.inr row`), and the table
is threaded as explicit state.
-/

/-- Python `str`, modelled as its list of characters. -/
abbrev PyStr := List Char

/-- The characters `str.splitlines` splits on, restricted to the line
separators that occur in this pipeline's data (`\n`, `\r`, and hence also
`\r\n`).  Python also splits on a few exotic separators (`\v`, `\f`,
` `, …) which never reach this program. -/
def isLineBreak (c : Char) : Bool := c = '\n' || c = '\r'

/-- `str.splitlines`, as splitting on line-break characters.  For a string
with a trailing line break (or with `\r\n`) this yields extra empty pieces
that Python's `splitlines` would not; every caller below filters out
empty lines right after splitting, so the two agree there. -/
def splitlines : PyStr → List PyStr
  | [] => [[]]
  | c :: cs =>
    if isLineBreak c then [] :: splitlines cs
    else
      match splitlines cs with
      | [] => [[c]]
      | l :: ls => (c :: l) :: ls

/-- Python `str.strip()`: drop leading and trailing whitespace. -/
def pyStrip (s : PyStr) : PyStr :=
  ((s.dropWhile Char.isWhitespace).reverse.dropWhile Char.isWhitespace).reverse

/-- Python `sep.join(pieces)`. -/
def pyJoin (sep : PyStr) : List PyStr → PyStr
  | [] => []
  | [e] => e
  | e :: es => e ++ sep ++ pyJoin sep es

/-- The character filter of `clean_extracted_text`:
`char.isdigit() or char in {'.', '€', 'EUR'}`.  The Python membership test
compares the one-character string `char` with each element of the set, so
the three-character element `'EUR'` can never match; it is kept here
verbatim as the (always false) last disjunct. -/
def keepChar (c : Char) : Bool :=
  c.isDigit || decide ([c] = ['.']) || decide ([c] = ['€']) ||
    decide ([c] = ['E', 'U', 'R'])

/-- The body of the numeric-cleaning loop of `clean_extracted_text`, for one
line: remove spaces, turn commas into periods, keep only the characters
passing `keepChar`, and keep the line only if a digit survives. -/
def cleanNumEntry (entry : PyStr) : Option PyStr :=
  let e1 := (entry.filter (fun c => c ≠ ' ')).map (fun c => if c = ',' then '.' else c)
  let e2 := e1.filter keepChar
  if e2.any Char.isDigit then some e2 else none

/-- The line extraction shared by both paths of `clean_extracted_text`:
`[entry.strip() for entry in text.splitlines() if entry.strip()]`. -/
def getLines (text : PyStr) : List PyStr :=
  ((splitlines text).map pyStrip).filter (fun l => l ≠ [])

/-- `clean_extracted_text(text, is_account)` from `read_input.py`. -/
def clean_extracted_text (text : PyStr) (is_account : Bool) : List PyStr :=
  if text = [] then []
  else
    let lines := getLines text
    if is_account then lines
    else lines.filterMap cleanNumEntry

/-- A 13-element account record, as built by `lookup_account_info`.  Fields
hold either a Python value (modelled as a string: the record's own entries
and the spreadsheet scalars are opaque here) or Python `None`. -/
abbrev Row := List (Option PyStr)

/-- `LOOKUP_TABLE`, a dict from 3-character key to 13-element template,
modelled as an association list (its keys are distinct). -/
abbrev Table := List (PyStr × Row)

/-- Python dict membership / subscript: the value stored under a key. -/
def tableGet (t : Table) (key : PyStr) : Option Row :=
  (t.find? (fun kv => kv.1 = key)).map (fun kv => kv.2)

/-- Replace the row stored under `key` by `f` of it (the effect, on the
dict, of mutating in place a list aliased from `t[key]`). -/
def writeTable (t : Table) (key : PyStr) (f : Row → Row) : Table :=
  t.map (fun kv => if kv.1 = key then (kv.1, f kv.2) else kv)

/-- The result of `lookup_account_info`: Python returns either the list
object `lookup_table[first_three_digits]` itself — an alias into the table,
represented by its key — or a freshly constructed list. -/
abbrev RowRef := PyStr ⊕ Row

/-- The embedded `LOOKUP_TABLE` constant of `read_input.py`. -/
def LOOKUP_TABLE : Table :=
  [("193".data,
    [some "Juandi".data, some "Debit account".data, some "193000".data,
     some "CIC".data, some "Funds".data, some "A123".data, some "".data,
     some "EUR".data, some "Medellin".data, some "Fund XYZ".data,
     none, none, some "Finance".data]),
   ("100".data,
    [some "Juanse".data, some "Credit account".data, some "100123".data,
     some "EXEX".data, some "Stocks".data, some "B456".data, some "".data,
     some "EUR".data, some "Tolima".data, some "Stock ABC".data,
     none, none, some "Technology".data])]

/-- `lookup_account_info(account_num, lookup_table)`.  `account_num` is the
Python value (possibly `None`); non-string scalars are already in string
form here (Python applies `str`). -/
def lookup_account_info (account_num : Option PyStr) (t : Table) : RowRef :=
  match account_num with
  | none => .inr (List.replicate 13 none)
  | some v =>
    let account_str := pyStrip v
    let first_three := if account_str.length ≥ 3 then account_str.take 3 else account_str
    match tableGet t first_three with
    | some _ => .inl first_three
    | none => .inr ((List.replicate 13 none).set 2 (some account_str))

/-- The list object a `RowRef` denotes, read in table state `t`. -/
def derefRow (t : Table) : RowRef → Row
  | .inl key => (tableGet t key).getD (List.replicate 13 none)
  | .inr row => row

/-- `account_template[idx] = v`: in-place assignment through a `RowRef`.
On an alias it mutates the table entry; on a fresh list it updates the
list.  Returns the reference (unchanged) and the new table state. -/
def writeField (r : RowRef) (idx : Nat) (v : Option PyStr) (t : Table) : RowRef × Table :=
  match r with
  | .inl key => (.inl key, writeTable t key (fun row => row.set idx v))
  | .inr row => (.inr (row.set idx v), t)

/-- `combine_and_pad_lists(lists)` from `read_input.py`.  Python's
`max(len(lst) for lst in lists)` over a non-empty list of lengths equals
`foldr max 0` over them. -/
def combine_and_pad_lists {α : Type} (lists : List (List (Option α))) :
    List (List (Option α)) :=
  if lists.isEmpty then []
  else
    let max_length := (lists.map List.length).foldr Nat.max 0
    lists.map (fun lst => lst ++ List.replicate (max_length - lst.length) none)

/-- One iteration of the row-assembly loop of `main` (body of
`for i in range(max_rows)`), at index `i` with account id `aid`:
look the id up, then overwrite index 10 from `combined_quantity` and
index 11 from `combined_prix_revient`, each under its bounds guard. -/
def assembleStep (t : Table) (q p : List (Option PyStr)) (i : Nat)
    (aid : Option PyStr) : RowRef × Table :=
  let tmpl := lookup_account_info aid t
  let s1 := if i < q.length then writeField tmpl 10 (q.getD i none) t else (tmpl, t)
  let s2 := if i < p.length then writeField s1.1 11 (p.getD i none) s1.2 else s1
  s2

/-- The row-assembly loop of `main`, recursing over the account list while
carrying the running index (Python iterates `i` over `range(max_rows)` with
`max_rows = len(combined_accounts_identifiers)` and reads
`combined_accounts_identifiers[i]`; here the list is traversed directly).
Returns the appended references in order and the final table state. -/
def assembleAux (q p : List (Option PyStr)) (t : Table) (i : Nat) :
    List (Option PyStr) → List RowRef × Table
  | [] => ([], t)
  | aid :: rest =>
    let s := assembleStep t q p i aid
    let r := assembleAux q p s.2 (i + 1) rest
    (s.1 :: r.1, r.2)

/-- Steps 4 of `main`: build `final_data_rows` from the padded lists. -/
def assemble (t : Table) (q p a : List (Option PyStr)) : List RowRef × Table :=
  assembleAux q p t 0 a

/-- The 13-column header of the CSV schema in `main`. -/
def CSV_HEADER : List PyStr :=
  ["Client", "Type de compte", "Nom et N. de compte", "Nom de banque",
   "Classe d'actifs", "Code ISIN", "Cours", "Devise", "Zone géographique",
   "Libellé", "Quantité", "Prix de revient", "Secteur"].map String.data

/-- The observable outcome of step 5 of `main`: either the
"No meaningful data extracted" message with no file written, or a CSV file
with the fixed header and the given data rows. -/
inductive Output where
  | noData : Output
  | csv : List PyStr → List Row → Output
deriving DecidableEq

/-- Step 5 of `main`: `if final_data_rows: ... write_csv ... else: print(...)`. -/
def writeOutput (rows : List Row) : Output :=
  if rows = [] then .noData else .csv CSV_HEADER rows

/-- `main()`, as a function of what the external readers return:
`excel_account` — the spreadsheet account cell (`None` if the file is
missing or the cell empty); `excel_value` / `excel_change` — the
`"Coût d'acquisition"` / `"Valorisation "` scalars when the data range was
read and has the column (`none` collapses the `df_excel is not None and
len > 0 and col in columns` guard failing); `pdf_value`, `pdf_change`,
`pdf_account` — the raw line lists `extract_pdf_data` collected per
rectangle (empty when the PDF is missing).  The lookup of `excel_account`
at the top of `main` is only printed, so it is omitted: it performs no
mutation. -/
def main_pipeline (excel_account excel_value excel_change : Option PyStr)
    (pdf_value pdf_change pdf_account : List PyStr) : Output :=
  let cleaned_pdf_value := clean_extracted_text (pyJoin [' '] pdf_value) false
  let cleaned_pdf_change := clean_extracted_text (pyJoin [' '] pdf_change) false
  let cleaned_pdf_accounts := clean_extracted_text (pyJoin [' '] pdf_account) true
  let combined_quantity := excel_value.toList.map some ++ cleaned_pdf_value.map some
  let combined_prix_revient := excel_change.toList.map some ++ cleaned_pdf_change.map some
  let combined_accounts := excel_account.toList.map some ++ cleaned_pdf_accounts.map some
  let padded := combine_and_pad_lists [combined_quantity, combined_prix_revient, combined_accounts]
  let q := padded.getD 0 []
  let p := padded.getD 1 []
  let a := padded.getD 2 []
  let res := assemble LOOKUP_TABLE q p a
  writeOutput (res.1.map (derefRow res.2))

/-- The data rows an `Output` writes (none for `noData`). -/
def outputRows : Output → List Row
  | .noData => []
  | .csv _ rows => rows

/-- Well-formedness of a table state: every stored row has 13 fields. -/
abbrev TableWF (t : Table) : Prop := ∀ kv ∈ t, (kv.2 : Row).length = 13

/-- Every fresh (non-aliased) row carried by a `RowRef` has 13 fields. -/
def rowRefWF (r : RowRef) : Prop := ∀ row : Row, r = Sum.inr row → row.length = 13


/-! ### Helper lemmas -/

theorem foldr_max_le_of_mem {n : Nat} {ns : List Nat} (h : n ∈ ns) :
    n ≤ ns.foldr Nat.max 0 := by
  induction ns with
  | nil => cases h
  | cons m ms ih =>
    rcases List.mem_cons.mp h with h1 | h1
    · subst h1; exact Nat.le_max_left _ _
    · exact Nat.le_trans (ih h1) (Nat.le_max_right _ _)

theorem getD_replicate_none {k i : Nat} :
    (List.replicate k (none : Option PyStr)).getD i none = none := by
  induction k generalizing i with
  | zero => cases i <;> rfl
  | succ k ih => cases i with
    | zero => rfl
    | succ j => exact ih

theorem set2_getD_ne {v : Option PyStr} {i : Nat} (hi : i ≠ 2) :
    ((List.replicate 13 (none : Option PyStr)).set 2 v).getD i none = none := by
  match i with
  | 0 => rfl
  | 1 => rfl
  | 2 => exact absurd rfl hi
  | (n + 3) =>
    show (List.replicate 10 (none : Option PyStr)).getD n none = none
    exact getD_replicate_none

theorem cleanNumEntry_eq_some {entry e : PyStr} (h : cleanNumEntry entry = some e) :
    (∀ c ∈ e, keepChar c = true) ∧ e.any Char.isDigit = true := by
  unfold cleanNumEntry at h
  dsimp only at h
  split at h
  · rename_i hd
    cases h
    exact ⟨fun c hc => List.of_mem_filter hc, hd⟩
  · cases h

theorem clean_mem_false {x e : PyStr} (h : e ∈ clean_extracted_text x false) :
    (∀ c ∈ e, keepChar c = true) ∧ e.any Char.isDigit = true := by
  unfold clean_extracted_text at h
  split at h
  · cases h
  · simp only [Bool.false_eq_true, if_false, List.mem_filterMap] at h
    obtain ⟨a, _, hfa⟩ := h
    exact cleanNumEntry_eq_some hfa

theorem splitlines_no_break {s : PyStr} (h : ∀ c ∈ s, isLineBreak c = false) :
    splitlines s = [s] := by
  induction s with
  | nil => rfl
  | cons c cs ih =>
    have hc : isLineBreak c = false := h c (by simp)
    have hrest := ih (fun d hd => h d (by simp [hd]))
    simp [splitlines, hc, hrest]

theorem mem_pyJoin {c : Char} {sep : PyStr} {ls : List PyStr}
    (h : c ∈ pyJoin sep ls) : c ∈ sep ∨ ∃ l ∈ ls, c ∈ l := by
  induction ls with
  | nil => cases h
  | cons e es ih =>
    cases es with
    | nil => exact Or.inr ⟨e, by simp, h⟩
    | cons e2 rest =>
      simp only [pyJoin, List.append_assoc, List.mem_append] at h
      rcases h with h1 | h1 | h1
      · exact Or.inr ⟨e, by simp, h1⟩
      · exact Or.inl h1
      · rcases ih h1 with h2 | ⟨l, hl, hcl⟩
        · exact Or.inl h2
        · exact Or.inr ⟨l, by simp [hl], hcl⟩

theorem getLines_len_le_one {s : PyStr} (h : ∀ c ∈ s, isLineBreak c = false) :
    (getLines s).length ≤ 1 := by
  unfold getLines
  rw [splitlines_no_break h]
  exact Nat.le_trans (List.length_filter_le _ _) (by simp)

theorem clean_len_le_one {s : PyStr} (b : Bool) (h : ∀ c ∈ s, isLineBreak c = false) :
    (clean_extracted_text s b).length ≤ 1 := by
  unfold clean_extracted_text
  split
  · simp
  · split
    · exact getLines_len_le_one h
    · exact Nat.le_trans (List.length_filterMap_le _ _) (getLines_len_le_one h)

/-! ### Claims -/

/-- C1: the claim states that the record returned by `lookup_account_info`
for a matched 3-character key is an independent copy of the table's
template, so that mutating index 10 or 11 of the result (as the
row-assembly loop of `main` does) leaves `LOOKUP_TABLE` unchanged and two
successive lookups of the same key return equal templates.  The code
instead returns `lookup_table[first_three_digits]` itself: this theorem
shows that, starting from `LOOKUP_TABLE`, looking up "193000" yields an
alias of the "193" entry, that assigning index 10 through it (exactly what
`main` does with `account_template[10] = ...`) changes the table's "193"
entry, and that a second lookup of the same identifier then returns a
template different from the first. -/
theorem claim_C1_alias_bug :
    lookup_account_info (some "193000".data) LOOKUP_TABLE = Sum.inl "193".data ∧
    (let r := lookup_account_info (some "193000".data) LOOKUP_TABLE
     let t2 := (writeField r 10 (some "9.99".data) LOOKUP_TABLE).2
     tableGet t2 "193".data ≠ tableGet LOOKUP_TABLE "193".data ∧
     derefRow t2 (lookup_account_info (some "193000".data) t2) ≠
       derefRow LOOKUP_TABLE (lookup_account_info (some "193000".data) LOOKUP_TABLE)) := by
  decide

/-- C3 counterexample: the claim says the numeric-cleaning path keeps the
letters "E", "U", "R" (so "5E" should clean to "5E").  In the code the
membership test `char in {'.', '€', 'EUR'}` compares a one-character
string with the three-character element 'EUR', which never matches, so the
letter is dropped: "5E" cleans to "5". -/
theorem claim_C3_counterexample :
    clean_extracted_text "5E".data false = ["5".data] ∧
    clean_extracted_text "5E".data false ≠ ["5E".data] := by decide

/-- C3 amended: on the numeric-cleaning path the normalizer retains exactly
the digit characters, the period, and the literal Euro sign — the letters
"E", "U", "R" are NOT retained, because the set element 'EUR' can never
equal a single character; every character of every output entry passes
this filter, and "5E" cleans to "5". -/
theorem keepChar_iff (c : Char) :
    keepChar c = true ↔ (c.isDigit = true ∨ c = '.' ∨ c = '€') := by
  unfold keepChar
  constructor
  · intro h
    simp only [Bool.or_eq_true, decide_eq_true_eq, List.cons.injEq, and_true,
      List.cons_ne_nil, and_false, or_false] at h
    tauto
  · intro h
    rcases h with h | h | h <;> simp [h]

theorem claim_C3_amended :
    (∀ c : Char, keepChar c = true ↔ (c.isDigit = true ∨ c = '.' ∨ c = '€')) ∧
    (∀ x e : PyStr, e ∈ clean_extracted_text x false → ∀ c ∈ e, keepChar c = true) ∧
    clean_extracted_text "5E".data false = ["5".data] :=
  ⟨keepChar_iff, fun x e he c hc => (clean_mem_false he).1 c hc, by decide⟩

/-- C3 amended, witness at a concrete character: the Euro sign passes the
filter (via the theorem's characterization of `keepChar`). -/
theorem claim_C3_amended_witness : keepChar '€' = true :=
  (claim_C3_amended.1 '€').mpr (Or.inr (Or.inr rfl))

/-- C2 counterexample: the claim says each non-empty digit-bearing line
collected from a PDF rectangle becomes its own entry of the combined
sequence (k lines give k entries).  `main` instead joins the collected
lines with spaces before cleaning (`" ".join(...)`), so the two lines
"1,00" and "2,00" collapse into the single entry "1.002.00" — 1 entry,
not 2. -/
theorem claim_C2_counterexample :
    (clean_extracted_text (pyJoin [' '] ["1,00".data, "2,00".data]) false).length ≠ 2 ∧
    clean_extracted_text (pyJoin [' '] ["1,00".data, "2,00".data]) false =
      ["1.002.00".data] := by decide

/-- C2 amended: because `main` joins each rectangle's collected lines with
spaces into a single string before calling `clean_extracted_text`, a
rectangle contributes at most ONE entry to its combined sequence, however
many lines were detected (the collected lines contain no line-break
characters, having come from `splitlines`). -/
theorem claim_C2_amended (lines : List PyStr) (b : Bool)
    (h : ∀ l ∈ lines, ∀ c ∈ l, isLineBreak c = false) :
    (clean_extracted_text (pyJoin [' '] lines) b).length ≤ 1 := by
  apply clean_len_le_one
  intro c hc
  rcases mem_pyJoin hc with h1 | ⟨l, hl, hcl⟩
  · rcases List.mem_singleton.mp h1 with rfl; rfl
  · exact h l hl c hcl

/-- C2 amended, witness: the two detected lines "1,00" and "2,00" (no line
breaks) yield at most one entry. -/
theorem claim_C2_amended_witness :
    (∀ l ∈ [("1,00".data : PyStr), "2,00".data], ∀ c ∈ l, isLineBreak c = false) ∧
    (clean_extracted_text (pyJoin [' '] ["1,00".data, "2,00".data]) false).length ≤ 1 :=
  ⟨by decide, claim_C2_amended ["1,00".data, "2,00".data] false (by decide)⟩

/-- C6: `lookup_account_info` on an absent identifier returns the
all-absent 13-field record, and on an identifier whose 3-character key
(the whole trimmed string when shorter than 3) is not in the table it
returns a 13-field record that is all-absent except index 2, which holds
the identifier's trimmed string form. -/
theorem claim_C6_lookup_miss (t : Table) (s : PyStr)
    (h : tableGet t (if (pyStrip s).length ≥ 3 then (pyStrip s).take 3 else pyStrip s) = none) :
    lookup_account_info none t = Sum.inr (List.replicate 13 none) ∧
    (List.replicate 13 (none : Option PyStr)).length = 13 ∧
    lookup_account_info (some s) t =
      Sum.inr ((List.replicate 13 none).set 2 (some (pyStrip s))) ∧
    ((List.replicate 13 (none : Option PyStr)).set 2 (some (pyStrip s))).length = 13 ∧
    ((List.replicate 13 (none : Option PyStr)).set 2 (some (pyStrip s))).getD 2 none =
      some (pyStrip s) ∧
    (∀ i : Nat, i ≠ 2 →
      ((List.replicate 13 (none : Option PyStr)).set 2 (some (pyStrip s))).getD i none = none) := by
  refine ⟨rfl, rfl, ?_, rfl, rfl, ?_⟩
  · unfold lookup_account_info
    dsimp only
    rw [h]
  · intro i hi
    exact set2_getD_ne hi

/-- C6 witness at the spec's concrete input "999999": key "999" is not in
`LOOKUP_TABLE`, and the lookup returns the all-absent record with index 2
set to "999999". -/
theorem claim_C6_lookup_miss_witness :
    tableGet LOOKUP_TABLE
      (if (pyStrip "999999".data).length ≥ 3 then (pyStrip "999999".data).take 3
       else pyStrip "999999".data) = none ∧
    lookup_account_info (some "999999".data) LOOKUP_TABLE =
      Sum.inr ((List.replicate 13 none).set 2 (some (pyStrip "999999".data))) :=
  ⟨by decide, (claim_C6_lookup_miss LOOKUP_TABLE "999999".data (by decide)).2.2.1⟩

/-- C7: `combine_and_pad_lists` maps a non-empty list of N sequences to N
sequences, each right-padded with `none` to the maximum input length; the
empty input yields the empty output; and the spec's concrete example pads
as stated. -/
theorem claim_C7_pad {α : Type} (lists : List (List (Option α))) (h : lists ≠ []) :
    (combine_and_pad_lists lists).length = lists.length ∧
    combine_and_pad_lists lists =
      lists.map (fun lst =>
        lst ++ List.replicate ((lists.map List.length).foldr Nat.max 0 - lst.length) none) ∧
    (∀ l ∈ combine_and_pad_lists lists,
      l.length = (lists.map List.length).foldr Nat.max 0) ∧
    combine_and_pad_lists ([] : List (List (Option α))) = [] ∧
    combine_and_pad_lists [[some 1, some 2], [some 1], [some (1 : Nat), some 2, some 3]] =
      [[some 1, some 2, none], [some 1, none, none], [some 1, some 2, some 3]] := by
  have hne : lists.isEmpty = false := by
    cases lists with
    | nil => exact absurd rfl h
    | cons x xs => rfl
  have hmain : combine_and_pad_lists lists =
      lists.map (fun lst =>
        lst ++ List.replicate ((lists.map List.length).foldr Nat.max 0 - lst.length) none) := by
    unfold combine_and_pad_lists
    rw [hne]
    rfl
  refine ⟨by rw [hmain]; simp, hmain, ?_, rfl, by decide⟩
  intro l hl
  rw [hmain] at hl
  rcases List.mem_map.mp hl with ⟨lst, hlst, rfl⟩
  have hle : lst.length ≤ (lists.map List.length).foldr Nat.max 0 :=
    foldr_max_le_of_mem (List.mem_map.mpr ⟨lst, hlst, rfl⟩)
  simp [List.length_append, List.length_replicate]
  omega

/-- C7 witness at the spec's example: three sequences pad to three
length-3 sequences. -/
theorem claim_C7_pad_witness :
    (combine_and_pad_lists [[some 1, some 2], [some 1], [some (1 : Nat), some 2, some 3]]).length =
      ([[some 1, some 2], [some 1], [some (1 : Nat), some 2, some 3]] :
        List (List (Option Nat))).length :=
  (claim_C7_pad [[some 1, some 2], [some 1], [some 1, some 2, some 3]] (by decide)).1

/-- C8: when the assembled table is empty the program reports the no-data
condition and writes nothing (and an all-absent run of the pipeline — both
input files missing — produces exactly that); when it is non-empty it
serializes all rows under the fixed 13-column header. -/
theorem claim_C8_empty_output (rows : List Row) (h : rows ≠ []) :
    writeOutput [] = Output.noData ∧
    writeOutput rows = Output.csv CSV_HEADER rows ∧
    CSV_HEADER.length = 13 ∧
    main_pipeline none none none [] [] [] = Output.noData := by
  refine ⟨rfl, ?_, by decide, by decide⟩
  unfold writeOutput
  rw [if_neg h]

/-- C8 witness: a one-row table is written under the fixed header. -/
theorem claim_C8_empty_output_witness :
    ([List.replicate 13 (none : Option PyStr)] : List Row) ≠ [] ∧
    writeOutput [List.replicate 13 none] = Output.csv CSV_HEADER [List.replicate 13 none] :=
  ⟨by decide, (claim_C8_empty_output [List.replicate 13 none] (by decide)).2.1⟩

/-- C4 counterexample: in the end-to-end run (spreadsheet cell "193",
acquisition-cost and valorisation scalars present, PDF value rectangle
yielding the line "1.500,00", PDF account rectangle yielding "100123456")
the claim says row 1's quantity is "1500.00".  The cleaner only replaces
commas by periods and never removes a period thousands separator, so the
quantity is "1.500.00". -/
theorem claim_C4_counterexample :
    ((outputRows (main_pipeline (some "193".data) (some "COST".data) (some "VALO".data)
        ["1.500,00".data] [] ["100123456".data])).getD 1 []).getD 10 none =
      some "1.500.00".data ∧
    ((outputRows (main_pipeline (some "193".data) (some "COST".data) (some "VALO".data)
        ["1.500,00".data] [] ["100123456".data])).getD 1 []).getD 10 none ≠
      some "1500.00".data := by decide

/-- C4 amended: the end-to-end run produces exactly 2 rows — row 0 the
"193" (Juandi) template with quantity the spreadsheet acquisition-cost
scalar (here the opaque "COST") and cost basis the valorisation scalar,
row 1 the "100" (Juanse) template with quantity "1.500.00" (comma replaced
by a period, the thousands-separator period retained) and cost basis
absent. -/
theorem claim_C4_amended :
    main_pipeline (some "193".data) (some "COST".data) (some "VALO".data)
        ["1.500,00".data] [] ["100123456".data] =
      Output.csv CSV_HEADER
        [[some "Juandi".data, some "Debit account".data, some "193000".data,
          some "CIC".data, some "Funds".data, some "A123".data, some "".data,
          some "EUR".data, some "Medellin".data, some "Fund XYZ".data,
          some "COST".data, some "VALO".data, some "Finance".data],
         [some "Juanse".data, some "Credit account".data, some "100123".data,
          some "EXEX".data, some "Stocks".data, some "B456".data, some "".data,
          some "EUR".data, some "Tolima".data, some "Stock ABC".data,
          some "1.500.00".data, none, some "Technology".data]] := by decide

/-! ### Well-formedness of table states and row references -/

theorem tableGet_wf {t : Table} {key : PyStr} {row : Row} (hwf : TableWF t)
    (h : tableGet t key = some row) : row.length = 13 := by
  unfold tableGet at h
  cases hfind : t.find? (fun kv => kv.1 = key) with
  | none => rw [hfind] at h; cases h
  | some kv =>
    rw [hfind, Option.map_some'] at h
    cases h
    exact hwf kv (List.mem_of_find?_eq_some hfind)

theorem writeTable_wf {t : Table} {key : PyStr} {f : Row → Row}
    (hwf : TableWF t) (hf : ∀ row : Row, row.length = 13 → (f row).length = 13) :
    TableWF (writeTable t key f) := by
  intro kv hkv
  unfold writeTable at hkv
  rcases List.mem_map.mp hkv with ⟨kv0, hkv0, rfl⟩
  split
  · exact hf _ (hwf kv0 hkv0)
  · exact hwf kv0 hkv0

theorem writeField_wf {r : RowRef} {idx : Nat} {v : Option PyStr} {t : Table}
    (hwf : TableWF t) : TableWF (writeField r idx v t).2 := by
  cases r with
  | inl key => exact writeTable_wf hwf (fun row h => by rw [List.length_set]; exact h)
  | inr row => exact hwf

theorem writeField_ref {r : RowRef} {idx : Nat} {v : Option PyStr} {t : Table}
    (hr : rowRefWF r) : rowRefWF (writeField r idx v t).1 := by
  cases r with
  | inl key => intro row h; simp [writeField] at h
  | inr row0 =>
    intro row h
    simp only [writeField, Sum.inr.injEq] at h
    rw [← h, List.length_set]
    exact hr row0 rfl

theorem lookup_wf {aid : Option PyStr} {t : Table} :
    rowRefWF (lookup_account_info aid t) := by
  cases aid with
  | none =>
    intro row h
    simp only [lookup_account_info, Sum.inr.injEq] at h
    rw [← h]
    rfl
  | some v =>
    intro row h
    unfold lookup_account_info at h
    dsimp only at h
    split at h
    · cases h
    · simp only [Sum.inr.injEq] at h
      rw [← h, List.length_set]
      rfl

theorem assembleStep_wf {t : Table} {q p : List (Option PyStr)} {i : Nat}
    {aid : Option PyStr} (hwf : TableWF t) :
    rowRefWF (assembleStep t q p i aid).1 ∧ TableWF (assembleStep t q p i aid).2 := by
  unfold assembleStep
  dsimp only
  by_cases h1 : i < q.length
  · by_cases h2 : i < p.length
    · simp only [h1, h2, if_true]
      exact ⟨writeField_ref (writeField_ref lookup_wf), writeField_wf (writeField_wf hwf)⟩
    · simp only [h1, h2, if_true, if_false]
      exact ⟨writeField_ref lookup_wf, writeField_wf hwf⟩
  · by_cases h2 : i < p.length
    · simp only [h1, h2, if_true, if_false]
      exact ⟨writeField_ref lookup_wf, writeField_wf hwf⟩
    · simp only [h1, h2, if_false]
      exact ⟨lookup_wf, hwf⟩

theorem assembleAux_wf {q p : List (Option PyStr)} :
    ∀ (a : List (Option PyStr)) (t : Table) (i : Nat), TableWF t →
      TableWF (assembleAux q p t i a).2 ∧
      ∀ r ∈ (assembleAux q p t i a).1, rowRefWF r := by
  intro a
  induction a with
  | nil => exact fun t i hwf => ⟨hwf, fun r hr => absurd hr (by simp [assembleAux])⟩
  | cons aid rest ih =>
    intro t i hwf
    unfold assembleAux
    dsimp only
    obtain ⟨h2, h3⟩ := ih (assembleStep t q p i aid).2 (i + 1) (assembleStep_wf hwf).2
    refine ⟨h2, ?_⟩
    intro r hr
    rcases List.mem_cons.mp hr with rfl | hr2
    · exact (assembleStep_wf hwf).1
    · exact h3 r hr2

theorem assembleAux_length {q p : List (Option PyStr)} :
    ∀ (a : List (Option PyStr)) (t : Table) (i : Nat),
      (assembleAux q p t i a).1.length = a.length := by
  intro a
  induction a with
  | nil => intro t i; rfl
  | cons aid rest ih =>
    intro t i
    unfold assembleAux
    dsimp only
    rw [List.length_cons, ih]
    rfl

theorem derefRow_wf {t : Table} {r : RowRef} (hwf : TableWF t) (hr : rowRefWF r) :
    (derefRow t r).length = 13 := by
  cases r with
  | inl key =>
    unfold derefRow
    dsimp only
    cases hg : tableGet t key with
    | none => decide
    | some row => exact tableGet_wf hwf hg
  | inr row => exact hr row rfl

theorem outputRows_writeOutput (rows : List Row) :
    outputRows (writeOutput rows) = rows := by
  unfold writeOutput
  split
  · rename_i h; rw [h]; rfl
  · rfl

/-- C5 counterexample: the claim says a field whose value is unknown always
holds `none`, never an empty string.  Running the pipeline with only the
spreadsheet account cell "193" appends the matched Juandi template as the
single output row, and its Cours (price) field — index 6, unknown in the
static table — holds the empty string, not the absent marker. -/
theorem claim_C5_counterexample :
    ((outputRows (main_pipeline (some "193".data) none none [] [] [])).getD 0 []).getD 6 none =
      some "".data ∧
    ¬ (∀ r ∈ outputRows (main_pipeline (some "193".data) none none [] [] []),
        ∀ f ∈ r, f ≠ some "".data) := by decide

/-- C5 amended: every row appended to the output table has exactly 13
fields, for every combination of reader results; fields left unset by
lookup hold `none` (an absent identifier gives a record whose every field
is `none`, and a missed key gives `none` at every index other than 2);
positions filled in by padding hold `none` (every position of a padded
sequence at or beyond its input sequence's length); but the Cours field of
the matched "193" template holds the empty string rather than the absent
marker, so unknown values are not uniformly `none`. -/
theorem claim_C5_amended (ea ev ec : Option PyStr) (pv pc pa : List PyStr) :
    (∀ r ∈ outputRows (main_pipeline ea ev ec pv pc pa), r.length = 13) ∧
    (∀ (t : Table) (i : Nat),
      (derefRow t (lookup_account_info none t)).getD i none = none) ∧
    (∀ (t : Table) (s : PyStr),
      tableGet t (if (pyStrip s).length ≥ 3 then (pyStrip s).take 3 else pyStrip s) = none →
      ∀ i : Nat, i ≠ 2 →
        (derefRow t (lookup_account_info (some s) t)).getD i none = none) ∧
    (∀ (q0 p0 a0 : List (Option PyStr)) (j : Nat),
      (q0.length ≤ j →
        ((combine_and_pad_lists [q0, p0, a0]).getD 0 []).getD j none = none) ∧
      (p0.length ≤ j →
        ((combine_and_pad_lists [q0, p0, a0]).getD 1 []).getD j none = none) ∧
      (a0.length ≤ j →
        ((combine_and_pad_lists [q0, p0, a0]).getD 2 []).getD j none = none)) ∧
    (derefRow LOOKUP_TABLE (lookup_account_info (some "193000".data) LOOKUP_TABLE)).getD 6
        none = some "".data := by
  refine ⟨?_, ?_, ?_, ?_, by decide⟩
  · intro r hr
    unfold main_pipeline at hr
    dsimp only at hr
    rw [outputRows_writeOutput] at hr
    rcases List.mem_map.mp hr with ⟨ref, href, rfl⟩
    have hwf : TableWF LOOKUP_TABLE := by decide
    obtain ⟨hend, hrefs⟩ := assembleAux_wf _ LOOKUP_TABLE 0 hwf
    exact derefRow_wf hend (hrefs ref href)
  · intro t i
    exact getD_replicate_none
  · intro t s h i hi
    have hlk : lookup_account_info (some s) t =
        Sum.inr ((List.replicate 13 none).set 2 (some (pyStrip s))) := by
      unfold lookup_account_info
      dsimp only
      rw [h]
    rw [hlk]
    exact set2_getD_ne hi
  · intro q0 p0 a0 j
    refine ⟨?_, ?_, ?_⟩
    · intro hj
      show (q0 ++ List.replicate
          (([q0, p0, a0].map List.length).foldr Nat.max 0 - q0.length) none).getD j none = none
      rw [List.getD_append_right _ _ _ _ hj]
      exact getD_replicate_none
    · intro hj
      show (p0 ++ List.replicate
          (([q0, p0, a0].map List.length).foldr Nat.max 0 - p0.length) none).getD j none = none
      rw [List.getD_append_right _ _ _ _ hj]
      exact getD_replicate_none
    · intro hj
      show (a0 ++ List.replicate
          (([q0, p0, a0].map List.length).foldr Nat.max 0 - a0.length) none).getD j none = none
      rw [List.getD_append_right _ _ _ _ hj]
      exact getD_replicate_none

/-- C5 amended, witness: the single row produced from the spreadsheet
account cell "193" (the Juandi template) has 13 fields; the padded-out
position 0 of an empty quantity list holds `none`; and the missed-key
lookup of "999999" holds `none` at index 0. -/
theorem claim_C5_amended_witness :
    ([some "Juandi".data, some "Debit account".data, some "193000".data,
      some "CIC".data, some "Funds".data, some "A123".data, some "".data,
      some "EUR".data, some "Medellin".data, some "Fund XYZ".data,
      none, none, some "Finance".data] : Row).length = 13 ∧
    ((combine_and_pad_lists
        [([] : List (Option PyStr)), [], [some "193".data]]).getD 0 []).getD 0 none = none ∧
    (derefRow LOOKUP_TABLE
        (lookup_account_info (some "999999".data) LOOKUP_TABLE)).getD 0 none = none :=
  ⟨(claim_C5_amended (some "193".data) none none [] [] []).1 _ (by decide),
   ((claim_C5_amended none none none [] [] []).2.2.2.1 [] [] [some "193".data] 0).1
     (by decide),
   (claim_C5_amended none none none [] [] []).2.2.1 LOOKUP_TABLE "999999".data (by decide)
     0 (by decide)⟩

theorem tableGet_writeTable (t : Table) (key key2 : PyStr) (f : Row → Row) :
    tableGet (writeTable t key f) key2 =
      if key2 = key then (tableGet t key2).map f else tableGet t key2 := by
  induction t with
  | nil =>
    simp [writeTable, tableGet]
  | cons kv rest ih =>
    have hd1 : ((if kv.1 = key then (kv.1, f kv.2) else kv) : PyStr × Row).1 = kv.1 := by
      split <;> rfl
    unfold writeTable tableGet at ih ⊢
    simp only [List.map_cons]
    by_cases hk2 : kv.1 = key2
    · by_cases hk : kv.1 = key
      · have hkey : key2 = key := by rw [← hk2, hk]
        simp [List.find?_cons_of_pos, hd1, hk, hk2, hkey]
      · have hkey : ¬ key2 = key := by rw [← hk2]; exact fun h => hk h
        simp [List.find?_cons_of_pos, hd1, hk, hk2, hkey]
    · have hskip : tableGet (writeTable rest key f) key2 =
          if key2 = key then (tableGet rest key2).map f else tableGet rest key2 := ih
      unfold writeTable tableGet at hskip
      rw [List.find?_cons_of_neg, List.find?_cons_of_neg]
      · exact hskip
      · simp [hk2]
      · simp [hd1, hk2]

theorem set_set_getD {row : Row} (h : row.length = 13) (v w : Option PyStr) :
    ((row.set 10 v).set 11 w).getD 10 none = v ∧
    ((row.set 10 v).set 11 w).getD 11 none = w := by
  constructor
  · rw [List.getD_eq_getElem?_getD, List.getElem?_set_ne (by omega),
      List.getElem?_set_self]
    · rfl
    · omega
  · rw [List.getD_eq_getElem?_getD, List.getElem?_set_self]
    · rfl
    · rw [List.length_set]
      omega

theorem lookup_inl {aid : Option PyStr} {t : Table} {key : PyStr}
    (h : lookup_account_info aid t = Sum.inl key) :
    ∃ row, tableGet t key = some row := by
  cases aid with
  | none => cases h
  | some v =>
    unfold lookup_account_info at h
    dsimp only at h
    split at h
    · rename_i row hg
      cases h
      exact ⟨row, hg⟩
    · cases h

theorem assembleStep_fields {t : Table} {q p : List (Option PyStr)} {i : Nat}
    {aid : Option PyStr} (hwf : TableWF t) (hq : i < q.length) (hp : i < p.length) :
    (derefRow (assembleStep t q p i aid).2 (assembleStep t q p i aid).1).getD 10 none =
      q.getD i none ∧
    (derefRow (assembleStep t q p i aid).2 (assembleStep t q p i aid).1).getD 11 none =
      p.getD i none := by
  unfold assembleStep
  dsimp only
  rw [if_pos hq, if_pos hp]
  cases hl : lookup_account_info aid t with
  | inl key =>
    obtain ⟨row, hrow⟩ := lookup_inl hl
    have h13 : row.length = 13 := tableGet_wf hwf hrow
    unfold writeField
    dsimp only
    unfold derefRow
    dsimp only
    rw [tableGet_writeTable, if_pos rfl, tableGet_writeTable, if_pos rfl, hrow]
    exact set_set_getD h13 _ _
  | inr row =>
    have h13 : row.length = 13 := lookup_wf row hl
    unfold writeField
    dsimp only
    unfold derefRow
    dsimp only
    exact set_set_getD h13 _ _

theorem pad3_lengths (q0 p0 a0 : List (Option PyStr)) :
    ((combine_and_pad_lists [q0, p0, a0]).getD 0 []).length =
      ([q0, p0, a0].map List.length).foldr Nat.max 0 ∧
    ((combine_and_pad_lists [q0, p0, a0]).getD 1 []).length =
      ([q0, p0, a0].map List.length).foldr Nat.max 0 ∧
    ((combine_and_pad_lists [q0, p0, a0]).getD 2 []).length =
      ([q0, p0, a0].map List.length).foldr Nat.max 0 := by
  have hq : q0.length ≤ ([q0, p0, a0].map List.length).foldr Nat.max 0 :=
    foldr_max_le_of_mem (by simp)
  have hp : p0.length ≤ ([q0, p0, a0].map List.length).foldr Nat.max 0 :=
    foldr_max_le_of_mem (by simp)
  have ha : a0.length ≤ ([q0, p0, a0].map List.length).foldr Nat.max 0 :=
    foldr_max_le_of_mem (by simp)
  refine ⟨?_, ?_, ?_⟩
  · show (q0 ++ List.replicate
        (([q0, p0, a0].map List.length).foldr Nat.max 0 - q0.length) none).length = _
    rw [List.length_append, List.length_replicate]
    omega
  · show (p0 ++ List.replicate
        (([q0, p0, a0].map List.length).foldr Nat.max 0 - p0.length) none).length = _
    rw [List.length_append, List.length_replicate]
    omega
  · show (a0 ++ List.replicate
        (([q0, p0, a0].map List.length).foldr Nat.max 0 - a0.length) none).length = _
    rw [List.length_append, List.length_replicate]
    omega

/-- C10: the three combined sequences, padded together by
`combine_and_pad_lists`, have equal lengths; hence at every row index the
two bounds guards of the assembly loop hold; the loop appends exactly one
row per index (the number of output rows equals the common padded length);
and each iteration, in any well-formed table state, assigns field 10 of
its row the padded quantity at that index and field 11 the padded cost
basis at that index (possibly the absent marker). -/
theorem claim_C10_alignment (q0 p0 a0 : List (Option PyStr)) (t : Table) :
    let padded := combine_and_pad_lists [q0, p0, a0]
    let q := padded.getD 0 []
    let p := padded.getD 1 []
    let a := padded.getD 2 []
    q.length = a.length ∧ p.length = a.length ∧
    (∀ i, i < a.length → i < q.length ∧ i < p.length) ∧
    (assemble t q p a).1.length = a.length ∧
    (∀ (t2 : Table) (i : Nat) (aid : Option PyStr), TableWF t2 →
      i < q.length → i < p.length →
      (derefRow (assembleStep t2 q p i aid).2 (assembleStep t2 q p i aid).1).getD 10 none =
        q.getD i none ∧
      (derefRow (assembleStep t2 q p i aid).2 (assembleStep t2 q p i aid).1).getD 11 none =
        p.getD i none) := by
  obtain ⟨h0, h1, h2⟩ := pad3_lengths q0 p0 a0
  dsimp only
  refine ⟨by omega, by omega, fun i hi => by omega, ?_, ?_⟩
  · exact assembleAux_length ((combine_and_pad_lists [q0, p0, a0]).getD 2 []) t 0
  · intro t2 i aid hwf hiq hip
    exact assembleStep_fields hwf hiq hip

/-- C10 witness: with the concrete combined lists `[["COST"], [], ["193"]]`
and the program's `LOOKUP_TABLE`, iteration 0 of the loop assigns field 10
of its row the padded quantity at index 0. -/
theorem claim_C10_alignment_witness :
    (derefRow
        (assembleStep LOOKUP_TABLE
          ((combine_and_pad_lists [[some "COST".data], [], [some "193".data]]).getD 0 [])
          ((combine_and_pad_lists [[some "COST".data], [], [some "193".data]]).getD 1 [])
          0 (some "193".data)).2
        (assembleStep LOOKUP_TABLE
          ((combine_and_pad_lists [[some "COST".data], [], [some "193".data]]).getD 0 [])
          ((combine_and_pad_lists [[some "COST".data], [], [some "193".data]]).getD 1 [])
          0 (some "193".data)).1).getD 10 none =
      ((combine_and_pad_lists [[some "COST".data], [], [some "193".data]]).getD 0 []).getD
        0 none := by
  have h := claim_C10_alignment [some "COST".data] [] [some "193".data] LOOKUP_TABLE
  dsimp only at h
  exact (h.2.2.2.2 LOOKUP_TABLE 0 (some "193".data) (by decide) (by decide) (by decide)).1

/-! ### Characters surviving the numeric filter are plain -/

theorem keepChar_not_special {c : Char} (h : keepChar c = true) :
    c ≠ ' ' ∧ c ≠ ',' ∧ isLineBreak c = false ∧ c.isWhitespace = false := by
  rcases (keepChar_iff c).mp h with hd | rfl | rfl
  · have hsp : c ≠ ' ' := fun e => by rw [e] at hd; exact absurd hd (by decide)
    have hcm : c ≠ ',' := fun e => by rw [e] at hd; exact absurd hd (by decide)
    have hn : c ≠ '\n' := fun e => by rw [e] at hd; exact absurd hd (by decide)
    have hr : c ≠ '\r' := fun e => by rw [e] at hd; exact absurd hd (by decide)
    have ht : c ≠ '\t' := fun e => by rw [e] at hd; exact absurd hd (by decide)
    refine ⟨hsp, hcm, ?_, ?_⟩
    · simp [isLineBreak, hn, hr]
    · simp [Char.isWhitespace, hsp, ht, hn, hr]
  · exact ⟨by decide, by decide, by decide, by decide⟩
  · exact ⟨by decide, by decide, by decide, by decide⟩

theorem dropWhile_eq_self_of_none {p : Char → Bool} {l : List Char}
    (h : ∀ c ∈ l, p c = false) : l.dropWhile p = l := by
  cases l with
  | nil => rfl
  | cons c cs => simp [List.dropWhile_cons, h c (by simp)]

theorem pyStrip_no_ws {s : PyStr} (h : ∀ c ∈ s, c.isWhitespace = false) :
    pyStrip s = s := by
  unfold pyStrip
  rw [dropWhile_eq_self_of_none h, dropWhile_eq_self_of_none, List.reverse_reverse]
  intro c hc
  exact h c (List.mem_reverse.mp hc)

theorem splitlines_cons (c : Char) (cs : PyStr) :
    splitlines (c :: cs) =
      if isLineBreak c then [] :: splitlines cs
      else
        match splitlines cs with
        | [] => [[c]]
        | l :: ls => (c :: l) :: ls := rfl

theorem splitlines_append_break {e s : PyStr} (h : ∀ c ∈ e, isLineBreak c = false) :
    splitlines (e ++ '\n' :: s) = e :: splitlines s := by
  induction e with
  | nil => simp [splitlines, isLineBreak]
  | cons c cs ih =>
    have hc : isLineBreak c = false := h c (by simp)
    have ihr := ih (fun d hd => h d (by simp [hd]))
    show splitlines (c :: (cs ++ '\n' :: s)) = (c :: cs) :: splitlines s
    rw [splitlines_cons, if_neg (by simp [hc]), ihr]

theorem getLines_pyJoin : ∀ entries : List PyStr,
    (∀ e ∈ entries, e ≠ []) →
    (∀ e ∈ entries, ∀ c ∈ e, isLineBreak c = false) →
    (∀ e ∈ entries, ∀ c ∈ e, c.isWhitespace = false) →
    getLines (pyJoin ['\n'] entries) = entries := by
  intro entries
  induction entries with
  | nil => intro _ _ _; rfl
  | cons e es ih =>
    intro hne hnb hws
    have he : e ≠ [] := hne e (by simp)
    have heb : ∀ c ∈ e, isLineBreak c = false := hnb e (by simp)
    have hew : ∀ c ∈ e, c.isWhitespace = false := hws e (by simp)
    cases es with
    | nil =>
      show getLines e = [e]
      unfold getLines
      rw [splitlines_no_break heb]
      simp [List.filter, pyStrip_no_ws hew, he]
    | cons e2 rest =>
      have hjoin : pyJoin ['\n'] (e :: e2 :: rest) =
          e ++ '\n' :: pyJoin ['\n'] (e2 :: rest) := by
        show e ++ ['\n'] ++ pyJoin ['\n'] (e2 :: rest) = _
        rw [List.append_assoc]
        rfl
      rw [hjoin]
      unfold getLines
      rw [splitlines_append_break heb]
      rw [List.map_cons, List.filter_cons, pyStrip_no_ws hew]
      have hkeep : (decide (e ≠ [])) = true := by simp [he]
      rw [hkeep]
      show e :: getLines (pyJoin ['\n'] (e2 :: rest)) = e :: e2 :: rest
      rw [ih (fun x hx => hne x (by simp [hx])) (fun x hx => hnb x (by simp [hx]))
        (fun x hx => hws x (by simp [hx]))]

theorem cleanNumEntry_fixpoint {e : PyStr} (hc : ∀ c ∈ e, keepChar c = true)
    (hd : e.any Char.isDigit = true) : cleanNumEntry e = some e := by
  have h1 : e.filter (fun c => decide (c ≠ ' ')) = e := by
    rw [List.filter_eq_self]
    intro c hcm
    simp [(keepChar_not_special (hc c hcm)).1]
  have h2 : e.map (fun c => if c = ',' then '.' else c) = e := by
    have hmap : ∀ c ∈ e, (if c = ',' then '.' else c) = id c := fun c hcm =>
      if_neg (keepChar_not_special (hc c hcm)).2.1
    rw [List.map_congr_left hmap, List.map_id]
  have h3 : e.filter keepChar = e := List.filter_eq_self.mpr hc
  unfold cleanNumEntry
  dsimp only
  rw [h1, h2, h3, if_pos hd]

theorem clean_of_entry {e : PyStr} (hc : ∀ c ∈ e, keepChar c = true)
    (hd : e.any Char.isDigit = true) : clean_extracted_text e false = [e] := by
  obtain ⟨c0, hc0, _⟩ := List.any_eq_true.mp hd
  have hene : e ≠ [] := by intro h; rw [h] at hc0; cases hc0
  unfold clean_extracted_text
  rw [if_neg hene]
  simp only [Bool.false_eq_true, if_false]
  have hl : getLines e = [e] := by
    unfold getLines
    rw [splitlines_no_break (fun c hcm => (keepChar_not_special (hc c hcm)).2.2.1)]
    simp [List.filter, pyStrip_no_ws (fun c hcm => (keepChar_not_special (hc c hcm)).2.2.2),
      hene]
  rw [hl]
  simp [List.filterMap_cons, cleanNumEntry_fixpoint hc hd]

theorem filterMap_id_of_some {l : List PyStr} {f : PyStr → Option PyStr}
    (h : ∀ a ∈ l, f a = some a) : l.filterMap f = l := by
  induction l with
  | nil => rfl
  | cons x xs ih =>
    rw [List.filterMap_cons, h x (by simp)]
    dsimp only
    rw [ih (fun a ha => h a (by simp [ha]))]

theorem clean_join_of_entries {L : List PyStr}
    (hc : ∀ e ∈ L, ∀ c ∈ e, keepChar c = true)
    (hd : ∀ e ∈ L, e.any Char.isDigit = true) :
    clean_extracted_text (pyJoin ['\n'] L) false = L := by
  cases L with
  | nil => rfl
  | cons e es =>
    have hne : ∀ x ∈ e :: es, x ≠ [] := by
      intro x hx hxe
      obtain ⟨c0, hc0, _⟩ := List.any_eq_true.mp (hd x hx)
      rw [hxe] at hc0
      cases hc0
    have hjoin_ne : pyJoin ['\n'] (e :: es) ≠ [] := by
      cases es with
      | nil => exact hne e (by simp)
      | cons e2 rest =>
        show e ++ ['\n'] ++ pyJoin ['\n'] (e2 :: rest) ≠ []
        rw [List.append_assoc]
        exact List.append_ne_nil_of_left_ne_nil (hne e (by simp)) _
    unfold clean_extracted_text
    rw [if_neg hjoin_ne]
    simp only [Bool.false_eq_true, if_false]
    rw [getLines_pyJoin (e :: es) hne
      (fun x hx c hcm => (keepChar_not_special (hc x hx c hcm)).2.2.1)
      (fun x hx c hcm => (keepChar_not_special (hc x hx c hcm)).2.2.2)]
    exact filterMap_id_of_some (fun a ha => cleanNumEntry_fixpoint (hc a ha) (hd a ha))

/-- C9: the numeric-cleaning path is idempotent.  For every input string,
re-cleaning the newline-joined output of `clean_extracted_text` returns
the same sequence, and every individual output entry re-cleans to itself
as a singleton. -/
theorem claim_C9_idempotent (x : PyStr) :
    clean_extracted_text (pyJoin ['\n'] (clean_extracted_text x false)) false =
      clean_extracted_text x false ∧
    ∀ e ∈ clean_extracted_text x false, clean_extracted_text e false = [e] := by
  constructor
  · exact clean_join_of_entries (fun e he => (clean_mem_false he).1)
      (fun e he => (clean_mem_false he).2)
  · intro e he
    exact clean_of_entry (clean_mem_false he).1 (clean_mem_false he).2

/-- C9 witness at the spec's concrete sample "1 234,56": re-cleaning the
joined output reproduces it. -/
theorem claim_C9_idempotent_witness :
    clean_extracted_text (pyJoin ['\n'] (clean_extracted_text "1 234,56".data false)) false =
      clean_extracted_text "1 234,56".data false :=
  (claim_C9_idempotent "1 234,56".data).1
